import Mathlib

/-!
Shallow embedding of src/airtable_sync_with_links.py.

Python dynamic values are modelled by the inductive `Value`; Python's
`str.strip` is modelled by `strip` (dropping whitespace from both ends of the
character list); dictionaries are modelled as functions `String → Option _`
updated with `updFun`, and the payload dict built by `to_payload` as an
association list whose later entries win (`lastLookup`).  The remote Airtable
tables are modelled by `TableState`: a list of records plus a fresh-id counter;
`table.create` appends a record whose fields are exactly the payload and
`table.update` merges the payload into the matching record's fields (pyairtable
PATCH semantics).  The network, rate-limit sleeps and the try/except error
paths are not modelled: in the model every remote call succeeds, so the error
counter stays zero.
-/

namespace BiotechSync

/-- Python runtime values that flow through the sync script: `None`, strings,
booleans and lists of record-identifier strings. -/
inductive Value where
  | none : Value
  | str (s : String) : Value
  | bool (b : Bool) : Value
  | list (ids : List String) : Value
deriving DecidableEq, Repr

/-- Python truthiness (`if v:`) for the values above. -/
def pyTruthy : Value → Bool
  | Value.none => false
  | Value.str s => s ≠ ""
  | Value.bool b => b
  | Value.list l => l ≠ []

/-- Python `str(v)`.  Only the string case is ever reached on the data the
script stores, but the function is total. -/
def pyStr : Value → String
  | Value.none => "None"
  | Value.str s => s
  | Value.bool b => if b then "True" else "False"
  | Value.list l =>
      let q := String.singleton (Char.ofNat 39)
      "[" ++ String.intercalate ", " (l.map (fun s => q ++ s ++ q)) ++ "]"

/-- Characters removed by Python `str.strip()` (ASCII whitespace; the model
ignores the rarer Unicode whitespace Python also strips). -/
def wsp (c : Char) : Bool := c.isWhitespace

/-- Strip whitespace from both ends of a character list. -/
def stripList (l : List Char) : List Char :=
  ((l.dropWhile wsp).reverse.dropWhile wsp).reverse

/-- Python `s.strip()`. -/
def strip (s : String) : String := String.mk (stripList s.data)

/-- Python `s.lower()` (per-character lowering; structural, so it computes by
kernel reduction unlike `String.toLower`). -/
def pyLower (s : String) : String := String.mk (s.data.map Char.toLower)

/-- Python `s.replace(";", ",")` (single-character replacement). -/
def pyReplaceSemi (s : String) : String :=
  String.mk (s.data.map (fun c => if c = (Char.ofNat 59) then (Char.ofNat 44) else c))

/-- Split a character list on commas; `[]` input yields one empty chunk, like
Python `"".split(",") == [""]`. -/
def splitCommaList : List Char → List (List Char)
  | [] => [[]]
  | c :: rest =>
      match splitCommaList rest with
      | [] => [[c]]
      | t :: ts =>
          if c = (Char.ofNat 44) then [] :: t :: ts else (c :: t) :: ts

/-- Python `s.split(",")`. -/
def pySplitComma (s : String) : List String :=
  (splitCommaList s.data).map String.mk

/-- Python `s.startswith(pre)`. -/
def pyStartsWith (s pre : String) : Bool := pre.data.isPrefixOf s.data

/-- A CSV row: a dictionary from column name to cell text (`row.get(k)`). -/
abbrev Row := String → Option String

/-- A lookup mapping (normalized name → record id), and also the payload-free
view of a remote lookup table. -/
abbrev LookupMap := String → Option String

/-- Embed `row.get(k)` (an optional string) into `Value`. -/
def toValue : Option String → Value
  | Option.none => Value.none
  | some s => Value.str s

/-- Functional dictionary update `d[k] = v`. -/
def updFun {α : Type} (f : String → Option α) (k : String) (v : α) :
    String → Option α :=
  fun k' => if k' = k then some v else f k'

/-- Placeholder tokens treated as absent data (airtable_sync_with_links.py
lines 38, 44, 62). -/
def placeholders : List String := ["tbd", "unknown", "n/a"]

/-- Model of `sanitize` (lines 33–39): trims string input and maps blank or placeholder
strings to `None`; non-strings pass through. -/
def sanitize : Value → Value
  | Value.none => Value.none
  | Value.str v =>
      let s := strip v
      if s = "" ∨ pyLower s ∈ placeholders then Value.none else Value.str s
  | v => v

/-- Model of `compute_verified` (lines 41–44). -/
def compute_verified (row : Row) : Bool :=
  let w := pyLower (strip ((row "Website").getD ""))
  let city := pyLower (strip ((row "HQ City/State").getD ""))
  pyStartsWith w "http" && !(["", "tbd", "unknown", "n/a"].contains city)

/-- Model of `parse_list_field` (lines 57–62): falsy or non-string input gives `[]`;
otherwise rewrite `;` to `,`, split on `,`, trim, and keep the tokens that are
non-empty and not placeholders. -/
def parse_list_field : Value → List String
  | Value.str s =>
      if s = "" then []
      else
        let cleaned := pyReplaceSemi s
        let items := (pySplitComma cleaned).map strip
        items.filter (fun item =>
          item != "" && !(["tbd", "unknown", "n/a", ""].contains (pyLower item)))
  | _ => []

/-- Model of `FIELD_MAP` (lines 23–31), in source order. -/
def FIELD_MAP : List (String × String) :=
  [("Firm", "Firm Name"),
   ("Website", "Website"),
   ("HQ City/State", "Headquarters City/State"),
   ("AUM (USD)", "Assets Under Management (USD)"),
   ("Typical Check Size (USD)", "Typical Check Size (USD)"),
   ("Description", "Description"),
   ("Verified", "Verified")]

/-- The boolean coercion applied to the sanitized Verified cell
(lines 112–114): strings in the true set become `True`, strings in the false
set become `False`, other strings pass through; non-strings pass through. -/
def coerceVerifiedVal : Value → Value
  | Value.str v =>
      let vl := pyLower (strip v)
      if vl ∈ ["true", "1", "yes", "y"] then Value.bool true
      else if vl ∈ ["false", "0", "no", "n", ""] then Value.bool false
      else Value.str v
  | v => v

/-- The list comprehension of lines 117, 121, 125: keep the truthy results of
`map.get(item.lower())`. -/
def resolveIds (m : LookupMap) (items : List String) : List String :=
  items.filterMap (fun item =>
    match m (pyLower item) with
    | some s => if s = "" then Option.none else some s
    | Option.none => Option.none)

/-- Conditional relation entry: `if ids: payload[name] = ids`
(lines 118–119, 122–123, 126–127). -/
def relEntry (name : String) (ids : List String) : List (String × Value) :=
  if ids.isEmpty then [] else [(name, Value.list ids)]

/-- The scalar part of the payload: one entry per `FIELD_MAP` pair, in order
(lines 110–115). -/
def scalarPayload (csv_row : Row) : List (String × Value) :=
  FIELD_MAP.map (fun p =>
    (p.2,
     if p.2 = "Verified" then coerceVerifiedVal (sanitize (toValue (csv_row p.1)))
     else sanitize (toValue (csv_row p.1))))

/-- Model of `to_payload` (lines 108–128), as an association list in insertion order
(all keys written are distinct, so this is faithful to the Python dict). -/
def to_payload (csv_row : Row) (therapeutic_map geography_map : LookupMap) :
    List (String × Value) :=
  scalarPayload csv_row
    ++ relEntry "Therapeutic Areas of Focus"
        (resolveIds therapeutic_map (parse_list_field (toValue (csv_row "Therapeutic Areas"))))
    ++ relEntry "Geography Focus"
        (resolveIds geography_map (parse_list_field (toValue (csv_row "Geography Focus"))))
    ++ relEntry "Headquarters Country"
        (resolveIds geography_map (parse_list_field (toValue (csv_row "HQ Country"))))

/-- First-of-two choice on options: keep the first when it is `some`.  Used to
express "the later dictionary write wins" when folding from the right. -/
def pick {α : Type} (o x : Option α) : Option α :=
  match o with
  | some v => some v
  | Option.none => x

/-- Dictionary lookup on an association list where later entries win (the
Python dict built by repeated assignment). -/
def lastLookup : List (String × Value) → String → Option Value
  | [], _ => Option.none
  | kv :: t, k =>
      pick (lastLookup t k) (if kv.1 = k then some kv.2 else Option.none)

/-- Record fields as a dictionary. -/
abbrev Fields := String → Option Value

/-- Merge a payload into a field dictionary, later payload entries winning
(pyairtable update = PATCH merge). -/
def mergeFields (f : Fields) (p : List (String × Value)) : Fields :=
  p.foldl (fun g kv => updFun g kv.1 kv.2) f

/-- The empty field dictionary. -/
def emptyFields : Fields := fun _ => Option.none

/-- Fields of a freshly created record: exactly the payload. -/
def fieldsOfPayload (p : List (String × Value)) : Fields :=
  mergeFields emptyFields p

/-- Merge a sequence of payloads in order. -/
def mergeMany (f : Fields) (ps : List (List (String × Value))) : Fields :=
  ps.foldl mergeFields f

/-- A remote record: identifier plus field dictionary. -/
structure TableRec where
  id : Nat
  fields : Fields

/-- A remote table: its records in listing order plus a fresh-id counter. -/
structure TableState where
  records : List TableRec
  nextId : Nat

/-- Model of `firms_table.create(payload)` (line 160): append a record whose fields are
the payload, with a fresh identifier. -/
def tableCreate (t : TableState) (p : List (String × Value)) : TableState :=
  { records := t.records ++ [{ id := t.nextId, fields := fieldsOfPayload p }],
    nextId := t.nextId + 1 }

/-- Model of `firms_table.update(id, payload)` (line 155): merge the payload into the
fields of the record with that identifier. -/
def tableUpdate (t : TableState) (i : Nat) (p : List (String × Value)) :
    TableState :=
  { t with records :=
      t.records.map (fun r =>
        if r.id = i then { r with fields := mergeFields r.fields p } else r) }

/-- The index key a record contributes in `index_existing_firms`
(`str(firm).strip().lower()`), or `none` when the Firm Name field is falsy. -/
def recKey (r : TableRec) : Option String :=
  match r.fields "Firm Name" with
  | some v => if pyTruthy v then some (pyLower (strip (pyStr v))) else Option.none
  | Option.none => Option.none

/-- One step of the `index_existing_firms` dictionary fold. -/
def indexStep (ex : String → Option Nat) (r : TableRec) : String → Option Nat :=
  match recKey r with
  | some k => updFun ex k r.id
  | Option.none => ex

/-- Model of `index_existing_firms` (lines 130–139) as a dictionary fold: later records
overwrite earlier ones with the same key. -/
def index_existing_firms (records : List TableRec) : String → Option Nat :=
  records.foldl indexStep (fun _ => Option.none)

/-- The identifier of the last record whose index key is `k` (the value
`index_existing_firms` ends up storing at `k`). -/
def lastFirmId : List TableRec → String → Option Nat
  | [], _ => Option.none
  | r :: t, k =>
      pick (lastFirmId t k) (if recKey r = some k then some r.id else Option.none)

/-- One remote write issued by the upsert loop, with the natural key that
drove it. -/
inductive UpsertOp where
  | create (key : String) (i : Nat) (p : List (String × Value)) : UpsertOp
  | update (key : String) (i : Nat) (p : List (String × Value)) : UpsertOp
deriving DecidableEq, Repr

/-- Natural key of an op. -/
def opKey : UpsertOp → String
  | UpsertOp.create k _ _ => k
  | UpsertOp.update k _ _ => k

/-- Record identifier targeted by an op. -/
def opId : UpsertOp → Nat
  | UpsertOp.create _ i _ => i
  | UpsertOp.update _ i _ => i

/-- Payload carried by an op. -/
def opPayload : UpsertOp → List (String × Value)
  | UpsertOp.create _ _ p => p
  | UpsertOp.update _ _ p => p

/-- Is the op a create? -/
def opIsCreate : UpsertOp → Bool
  | UpsertOp.create _ _ _ => true
  | UpsertOp.update _ _ _ => false

/-- Result of a run of the upsert loop: final table, final in-memory index,
the three counters the source returns, and the per-row log of issued calls
(`none` for a skipped row). -/
structure RunOut where
  table : TableState
  existing : String → Option Nat
  updates : Nat
  creates : Nat
  errors : Nat
  log : List (Option UpsertOp)

/-- The row loop of `upsert_firms` (lines 147–168), threading the in-memory
index and the table state.  In the model every call succeeds, so `errors`
stays 0. -/
def runRows (tm gm : LookupMap) :
    List Row → (String → Option Nat) → TableState → RunOut
  | [], ex, t =>
      { table := t, existing := ex, updates := 0, creates := 0, errors := 0,
        log := [] }
  | r :: rows, ex, t =>
      let firm_name := strip ((r "Firm").getD "")
      if firm_name = "" then
        let out := runRows tm gm rows ex t
        { out with log := Option.none :: out.log }
      else
        let key_val := pyLower firm_name
        let payload := to_payload r tm gm
        match ex key_val with
        | some i =>
            let out := runRows tm gm rows ex (tableUpdate t i payload)
            { out with updates := out.updates + 1,
                       log := some (UpsertOp.update key_val i payload) :: out.log }
        | Option.none =>
            let out := runRows tm gm rows (updFun ex key_val t.nextId)
                (tableCreate t payload)
            { out with creates := out.creates + 1,
                       log := some (UpsertOp.create key_val t.nextId payload) :: out.log }

/-- Model of `upsert_firms` (lines 141–168): index the existing firms, then run the row
loop. -/
def upsert_firms (rows : List Row) (tm gm : LookupMap) (t : TableState) :
    RunOut :=
  runRows tm gm rows (index_existing_firms t.records) t

/-- Mapping built from the existing records of a lookup table
(lines 65–72): truthy names indexed by `name.strip().lower()`.  A record is a
pair (optional name-field value, record id). -/
def lookupIndex (recs : List (Option String × String)) : LookupMap :=
  recs.foldl
    (fun m q =>
      match q.1 with
      | some name => if name ≠ "" then updFun m (pyLower (strip name)) q.2 else m
      | Option.none => m)
    (fun _ => Option.none)

/-- Model of `get_or_create_lookup_table` (lines 64–87): build the mapping, collect
`to_create` = items whose lower-cased form is absent from the mapping, then
create each of them (fresh ids) and record it.  Returns the final mapping and
the list of create-call arguments, in call order. -/
def get_or_create_lookup_table (recs : List (Option String × String))
    (items : List String) (startId : Nat) : LookupMap × List String :=
  let mapping := lookupIndex recs
  let to_create := items.filter (fun item => (mapping (pyLower item)).isNone)
  let final := to_create.foldl
    (fun st item => (updFun st.1 (pyLower item) ("rec" ++ toString st.2), st.2 + 1))
    (mapping, startId)
  (final.1, to_create)

/-- Turn a logged op into the update it would become on a replay (same key,
same identifier, same payload). -/
def updatifyOp : UpsertOp → UpsertOp
  | UpsertOp.create k i p => UpsertOp.update k i p
  | UpsertOp.update k i p => UpsertOp.update k i p

/-- Re-play view of a whole log: every issued call becomes an update. -/
def updatifyLog (L : List (Option UpsertOp)) : List (Option UpsertOp) :=
  L.map (Option.map updatifyOp)

/-- The payloads of the logged calls that target record `i`, in order. -/
def payloadsFor : List (Option UpsertOp) → Nat → List (List (String × Value))
  | [], _ => []
  | Option.none :: L, i => payloadsFor L i
  | some op :: L, i =>
      if opId op = i then opPayload op :: payloadsFor L i else payloadsFor L i

/-- The value the last payload in the sequence writes at key `k`, if any. -/
def lastVals : List (List (String × Value)) → String → Option Value
  | [], _ => Option.none
  | p :: ps, k => pick (lastVals ps k) (lastLookup p k)

/-- Does the row survive the blank-name skip of line 149? -/
def nonSkipB (r : Row) : Bool := strip ((r "Firm").getD "") != ""

/-- No row whose trimmed firm name is non-empty has a placeholder name (such a
row would be created with a null `Firm Name` field and be invisible to the
next run's index). -/
def goodRow (r : Row) : Prop :=
  strip ((r "Firm").getD "") ≠ "" →
    pyLower (strip ((r "Firm").getD "")) ∉ placeholders

instance goodRowDecidable (r : Row) : Decidable (goodRow r) :=
  inferInstanceAs (Decidable (strip ((r "Firm").getD "") ≠ "" →
    pyLower (strip ((r "Firm").getD "")) ∉ placeholders))

/-- The logged calls whose natural key is `k`, in order. -/
def opsForKey : List (Option UpsertOp) → String → List UpsertOp
  | [], _ => []
  | Option.none :: L, k => opsForKey L k
  | some op :: L, k =>
      if opKey op = k then op :: opsForKey L k else opsForKey L k

/-- Does the row survive the skip and normalize to natural key `k`? -/
def keyMatchB (k : String) (r : Row) : Bool :=
  (strip ((r "Firm").getD "") != "") && (pyLower (strip ((r "Firm").getD "")) == k)

/-- Compatibility of a log with an index map over a row list: each skipped
row logs nothing, and each processed row logs a call whose key, payload and
identifier agree with the row and the map. -/
def Compat (tm gm : LookupMap) (ex : String → Option Nat) :
    List Row → List (Option UpsertOp) → Prop
  | [], [] => True
  | r :: rows, e :: L =>
      (if strip ((r "Firm").getD "") = "" then e = Option.none
       else ∃ op, e = some op ∧
         opKey op = pyLower (strip ((r "Firm").getD "")) ∧
         opPayload op = to_payload r tm gm ∧
         ex (pyLower (strip ((r "Firm").getD ""))) = some (opId op)) ∧
      Compat tm gm ex rows L
  | _, _ => False

/-- Everything the first run establishes: the in-memory index mirrors the
index of the final table; record ids stay distinct and below the fresh-id
counter; keys once present in the index stay bound to the same identifier;
the log is compatible with the final index; and every final record's fields
are an initial (or empty) field dictionary merged with exactly the logged
payloads that target its identifier. -/
structure MasterInv (tm gm : LookupMap) (rows : List Row)
    (ex : String → Option Nat) (t : TableState) (out : RunOut) : Prop where
  inv : ∀ k, out.existing k = lastFirmId out.table.records k
  nodup : (out.table.records.map TableRec.id).Nodup
  bound : ∀ r ∈ out.table.records, r.id < out.table.nextId
  stable : ∀ k i, ex k = some i → out.existing k = some i
  compat : Compat tm gm out.existing rows out.log
  chara : ∀ r ∈ out.table.records,
      (∃ r0 ∈ t.records, r0.id = r.id ∧
        r.fields = mergeMany r0.fields (payloadsFor out.log r.id))
      ∨ (t.nextId ≤ r.id ∧ r.fields = mergeMany emptyFields (payloadsFor out.log r.id))

/-- The empty lookup mapping. -/
def emptyLookup : LookupMap := fun _ => Option.none

/-- An empty remote firms table. -/
def emptyTable : TableState := { records := [], nextId := 0 }

/-- Concrete row: firm name is the placeholder "TBD". -/
def rowTBD : Row := fun k => if k = "Firm" then some "TBD" else Option.none

/-- Concrete row: firm "Acme Capital", no other cells. -/
def rowAcme : Row := fun k => if k = "Firm" then some "Acme Capital" else Option.none

/-- Concrete row: the same firm in different casing with extra whitespace. -/
def rowAcmeUpper : Row :=
  fun k => if k = "Firm" then some " ACME CAPITAL " else Option.none

/-- Concrete row: firm name that is blank after trimming. -/
def rowBlank : Row := fun k => if k = "Firm" then some "   " else Option.none

/-- Concrete row: an explicitly empty Verified cell. -/
def rowVerifiedEmpty : Row :=
  fun k => if k = "Verified" then some "" else Option.none

/-- Concrete row of the spec's first compute_verified example. -/
def rowC4a : Row :=
  fun k => if k = "Website" then some "https://acme.vc"
    else if k = "HQ City/State" then some "Boston, MA" else Option.none

/-- Concrete row of the spec's second compute_verified example (no scheme). -/
def rowC4b : Row :=
  fun k => if k = "Website" then some "acme.vc"
    else if k = "HQ City/State" then some "Boston, MA" else Option.none

/-- Concrete row of the spec's third compute_verified example (placeholder
city). -/
def rowC4c : Row :=
  fun k => if k = "Website" then some "https://x.io"
    else if k = "HQ City/State" then some "TBD" else Option.none

/-- A one-entry lookup mapping used for concrete relation-resolution checks. -/
def oneLookup : LookupMap :=
  fun k => if k = "onc" then some "recX" else Option.none

/-! Basic lemmas about `pick`, `strip`, dictionary folds and merges. -/

@[simp] theorem pick_some {α : Type} (v : α) (x : Option α) :
    pick (some v) x = some v := rfl

@[simp] theorem pick_none {α : Type} (x : Option α) :
    pick Option.none x = x := rfl

@[simp] theorem pick_none_right {α : Type} (o : Option α) :
    pick o Option.none = o := by cases o <;> rfl

theorem pick_assoc {α : Type} (a b c : Option α) :
    pick (pick a b) c = pick a (pick b c) := by cases a <;> rfl

theorem pick_self {α : Type} (a b : Option α) :
    pick a (pick a b) = pick a b := by cases a <;> rfl

theorem dropWhile_dropWhile {α : Type} (p : α → Bool) (l : List α) :
    (l.dropWhile p).dropWhile p = l.dropWhile p := by
  induction l with
  | nil => rfl
  | cons a t ih =>
      cases h : p a with
      | true => simp [List.dropWhile_cons, h, ih]
      | false => simp [List.dropWhile_cons, h]

theorem head_dropWhile_false {α : Type} (p : α → Bool) :
    ∀ (l : List α) (a : α) (t : List α), l.dropWhile p = a :: t → p a = false := by
  intro l
  induction l with
  | nil => intro a t h; simp [List.dropWhile] at h
  | cons b m ih =>
      intro a t h
      cases hb : p b with
      | true =>
          rw [List.dropWhile_cons, if_pos hb] at h
          exact ih a t h
      | false =>
          rw [List.dropWhile_cons, if_neg (by simp [hb])] at h
          obtain ⟨rfl, rfl⟩ : b = a ∧ m = t := by
            constructor <;> simp_all
          exact hb

theorem exists_append_dropWhile {α : Type} (p : α → Bool) (l : List α) :
    ∃ u, l = u ++ l.dropWhile p :=
  ⟨l.takeWhile p, (List.takeWhile_append_dropWhile p l).symm⟩

theorem dropWhile_stripList (l : List Char) :
    (stripList l).dropWhile wsp = stripList l := by
  obtain ⟨u, hu⟩ := exists_append_dropWhile wsp (l.dropWhile wsp).reverse
  have hb : stripList l ++ u.reverse = l.dropWhile wsp := by
    have := congrArg List.reverse hu
    simpa [stripList, List.reverse_append] using this.symm
  cases hsl : stripList l with
  | nil => rfl
  | cons c t =>
      have : l.dropWhile wsp = c :: (t ++ u.reverse) := by
        rw [← hb, hsl]; simp
      have hc : wsp c = false := head_dropWhile_false wsp l c _ this
      rw [List.dropWhile_cons, if_neg (by simp [hc])]

theorem stripList_idem (l : List Char) : stripList (stripList l) = stripList l := by
  show (((stripList l).dropWhile wsp).reverse.dropWhile wsp).reverse = stripList l
  rw [dropWhile_stripList]
  have h : (stripList l).reverse = (l.dropWhile wsp).reverse.dropWhile wsp := by
    simp [stripList]
  rw [h, dropWhile_dropWhile]
  rfl

theorem strip_strip (s : String) : strip (strip s) = strip s :=
  congrArg String.mk (stripList_idem s.data)

theorem strip_empty : strip "" = "" := rfl

theorem lastLookup_append (a b : List (String × Value)) (k : String) :
    lastLookup (a ++ b) k = pick (lastLookup b k) (lastLookup a k) := by
  induction a with
  | nil => simp [lastLookup]
  | cons kv t ih =>
      show pick (lastLookup (t ++ b) k) _ = _
      rw [ih, pick_assoc]
      rfl

theorem mergeFields_apply (p : List (String × Value)) (f : Fields) (k : String) :
    mergeFields f p k = pick (lastLookup p k) (f k) := by
  induction p generalizing f with
  | nil => rfl
  | cons kv t ih =>
      show mergeFields (updFun f kv.1 kv.2) t k = _
      rw [ih]
      have hl : lastLookup (kv :: t) k
          = pick (lastLookup t k) (if kv.1 = k then some kv.2 else Option.none) := rfl
      rw [hl]
      cases h : lastLookup t k with
      | some v => rfl
      | none =>
          simp only [pick_none]
          by_cases hk : kv.1 = k
      -- then the written value is returned on both sides
          · subst hk
            simp [updFun]
          · rw [if_neg hk, pick_none]
            show (if k = kv.1 then some kv.2 else f k) = f k
            exact if_neg (fun hh : k = kv.1 => hk hh.symm)

theorem mergeMany_cons (f : Fields) (p : List (String × Value))
    (ps : List (List (String × Value))) :
    mergeMany f (p :: ps) = mergeMany (mergeFields f p) ps := rfl

theorem mergeMany_apply (ps : List (List (String × Value))) (f : Fields) (k : String) :
    mergeMany f ps k = pick (lastVals ps k) (f k) := by
  induction ps generalizing f with
  | nil => rfl
  | cons p ps ih =>
      rw [mergeMany_cons, ih, mergeFields_apply]
      show _ = pick (pick (lastVals ps k) (lastLookup p k)) (f k)
      rw [pick_assoc]

theorem mergeMany_absorb (f : Fields) (ps : List (List (String × Value))) :
    mergeMany (mergeMany f ps) ps = mergeMany f ps := by
  funext k
  rw [mergeMany_apply, mergeMany_apply, pick_self]

theorem indexFold_apply (recs : List TableRec) (ex0 : String → Option Nat) (k : String) :
    recs.foldl indexStep ex0 k = pick (lastFirmId recs k) (ex0 k) := by
  induction recs generalizing ex0 with
  | nil => rfl
  | cons r t ih =>
      show List.foldl indexStep (indexStep ex0 r) t k = _
      rw [ih]
      show _ = pick (pick (lastFirmId t k) _) (ex0 k)
      rw [pick_assoc]
      congr 1
      show indexStep ex0 r k
          = pick (if recKey r = some k then some r.id else Option.none) (ex0 k)
      unfold indexStep
      cases hr : recKey r with
      | none => simp
      | some k' =>
          by_cases hk : k' = k
          · subst hk; simp [updFun]
          · rw [if_neg (by simp [hk]), pick_none]
            show (if k = k' then some r.id else ex0 k) = ex0 k
            exact if_neg (fun hh : k = k' => hk hh.symm)

theorem index_eq_lastFirmId (recs : List TableRec) (k : String) :
    index_existing_firms recs k = lastFirmId recs k := by
  unfold index_existing_firms
  rw [indexFold_apply, pick_none_right]

theorem lastFirmId_append_single (l : List TableRec) (x : TableRec) (k : String) :
    lastFirmId (l ++ [x]) k =
      pick (if recKey x = some k then some x.id else Option.none) (lastFirmId l k) := by
  induction l with
  | nil => simp [lastFirmId]
  | cons r t ih =>
      show pick (lastFirmId (t ++ [x]) k) _ = _
      rw [ih, pick_assoc]
      rfl

theorem lastFirmId_map_preserved (l : List TableRec) (g : TableRec → TableRec)
    (h : ∀ r ∈ l, (g r).id = r.id ∧ recKey (g r) = recKey r) (k : String) :
    lastFirmId (l.map g) k = lastFirmId l k := by
  induction l with
  | nil => rfl
  | cons r t ih =>
      show pick (lastFirmId (t.map g) k) _ = pick (lastFirmId t k) _
      rw [ih (fun r hr => h r (List.mem_cons_of_mem _ hr))]
      congr 1
      obtain ⟨hid, hkey⟩ := h r (List.mem_cons_self _ _)
      rw [hid, hkey]

theorem lastFirmId_mem (l : List TableRec) (k : String) (i : Nat)
    (h : lastFirmId l k = some i) : ∃ r ∈ l, r.id = i ∧ recKey r = some k := by
  induction l with
  | nil => simp [lastFirmId] at h
  | cons r t ih =>
      rw [show lastFirmId (r :: t) k
            = pick (lastFirmId t k) (if recKey r = some k then some r.id else Option.none)
          from rfl] at h
      cases hl : lastFirmId t k with
      | some j =>
          rw [hl] at h
          obtain ⟨r', hr', hid, hkey⟩ := ih (hl.trans (by simpa using h))
          exact ⟨r', List.mem_cons_of_mem _ hr', hid, hkey⟩
      | none =>
          rw [hl, pick_none] at h
          by_cases hk : recKey r = some k
          · rw [if_pos hk] at h
            exact ⟨r, List.mem_cons_self _ _, by simpa using h, hk⟩
          · rw [if_neg hk] at h
            exact absurd h (by simp)

theorem payloadsFor_updatify (L : List (Option UpsertOp)) (i : Nat) :
    payloadsFor (updatifyLog L) i = payloadsFor L i := by
  induction L with
  | nil => rfl
  | cons e L ih =>
      cases e with
      | none => simpa [updatifyLog, payloadsFor] using ih
      | some op =>
          cases op with
          | create k' i' p' =>
              show payloadsFor (some (UpsertOp.update k' i' p') :: updatifyLog L) i
                  = payloadsFor (some (UpsertOp.create k' i' p') :: L) i
              simp only [payloadsFor, opId, opPayload, ih]
          | update k' i' p' =>
              show payloadsFor (some (UpsertOp.update k' i' p') :: updatifyLog L) i
                  = payloadsFor (some (UpsertOp.update k' i' p') :: L) i
              simp only [payloadsFor, opId, opPayload, ih]

theorem updatifyOp_eq (op : UpsertOp) :
    updatifyOp op = UpsertOp.update (opKey op) (opId op) (opPayload op) := by
  cases op <;> rfl

/-! Lemmas about the payload dictionary built by `to_payload`. -/

theorem lastLookup_relEntry_ne (name : String) (ids : List String) (k : String)
    (h : name ≠ k) : lastLookup (relEntry name ids) k = Option.none := by
  cases hi : ids.isEmpty <;> simp [relEntry, hi, lastLookup, h]

theorem lastLookup_relEntry_self (name : String) (ids : List String) :
    lastLookup (relEntry name ids) name
      = if ids.isEmpty then Option.none else some (Value.list ids) := by
  cases hi : ids.isEmpty <;> simp [relEntry, hi, lastLookup]

theorem lastLookup_payload_of_ne (row : Row) (tm gm : LookupMap) (k : String)
    (h1 : k ≠ "Therapeutic Areas of Focus") (h2 : k ≠ "Geography Focus")
    (h3 : k ≠ "Headquarters Country") :
    lastLookup (to_payload row tm gm) k = lastLookup (scalarPayload row) k := by
  unfold to_payload
  rw [lastLookup_append, lastLookup_append, lastLookup_append,
    lastLookup_relEntry_ne _ _ _ h3.symm, lastLookup_relEntry_ne _ _ _ h2.symm,
    lastLookup_relEntry_ne _ _ _ h1.symm, pick_none, pick_none, pick_none]

theorem lastLookup_payload_FirmName (row : Row) (tm gm : LookupMap) :
    lastLookup (to_payload row tm gm) "Firm Name"
      = some (sanitize (toValue (row "Firm"))) := by
  rw [lastLookup_payload_of_ne row tm gm _ (by decide) (by decide) (by decide)]
  rfl

theorem lastLookup_payload_Verified (row : Row) (tm gm : LookupMap) :
    lastLookup (to_payload row tm gm) "Verified"
      = some (coerceVerifiedVal (sanitize (toValue (row "Verified")))) := by
  rw [lastLookup_payload_of_ne row tm gm _ (by decide) (by decide) (by decide)]
  rfl

theorem lastLookup_payload_therapeutic (row : Row) (tm gm : LookupMap) :
    lastLookup (to_payload row tm gm) "Therapeutic Areas of Focus"
      = (if (resolveIds tm (parse_list_field (toValue (row "Therapeutic Areas")))).isEmpty
         then Option.none
         else some (Value.list
           (resolveIds tm (parse_list_field (toValue (row "Therapeutic Areas")))))) := by
  unfold to_payload
  rw [lastLookup_append, lastLookup_append, lastLookup_append,
    lastLookup_relEntry_ne _ _ _ (by decide), lastLookup_relEntry_ne _ _ _ (by decide),
    lastLookup_relEntry_self, pick_none, pick_none]
  rw [show lastLookup (scalarPayload row) "Therapeutic Areas of Focus" = Option.none from rfl,
    pick_none_right]

theorem lastLookup_payload_geography (row : Row) (tm gm : LookupMap) :
    lastLookup (to_payload row tm gm) "Geography Focus"
      = (if (resolveIds gm (parse_list_field (toValue (row "Geography Focus")))).isEmpty
         then Option.none
         else some (Value.list
           (resolveIds gm (parse_list_field (toValue (row "Geography Focus")))))) := by
  unfold to_payload
  rw [lastLookup_append, lastLookup_append, lastLookup_append,
    lastLookup_relEntry_ne _ _ _ (by decide), lastLookup_relEntry_self,
    lastLookup_relEntry_ne _ _ _ (by decide), pick_none]
  rw [show lastLookup (scalarPayload row) "Geography Focus" = Option.none from rfl,
    pick_none_right, pick_none_right]

theorem lastLookup_payload_country (row : Row) (tm gm : LookupMap) :
    lastLookup (to_payload row tm gm) "Headquarters Country"
      = (if (resolveIds gm (parse_list_field (toValue (row "HQ Country")))).isEmpty
         then Option.none
         else some (Value.list
           (resolveIds gm (parse_list_field (toValue (row "HQ Country")))))) := by
  unfold to_payload
  rw [lastLookup_append, lastLookup_append, lastLookup_append,
    lastLookup_relEntry_self, lastLookup_relEntry_ne _ _ _ (by decide),
    lastLookup_relEntry_ne _ _ _ (by decide), pick_none]
  rw [show lastLookup (scalarPayload row) "Headquarters Country" = Option.none from rfl,
    pick_none_right, pick_none_right]

theorem sanitize_str_eq (s : String) (h1 : strip s ≠ "")
    (h2 : pyLower (strip s) ∉ placeholders) :
    sanitize (Value.str s) = Value.str (strip s) := by
  show (if strip s = "" ∨ pyLower (strip s) ∈ placeholders
        then Value.none else Value.str (strip s)) = Value.str (strip s)
  exact if_neg (not_or.mpr ⟨h1, h2⟩)

theorem recKey_merge (f : Fields) (row : Row) (tm gm : LookupMap) (i : Nat) (s : String)
    (hrow : row "Firm" = some s) (h1 : strip s ≠ "")
    (h2 : pyLower (strip s) ∉ placeholders) :
    recKey { id := i, fields := mergeFields f (to_payload row tm gm) }
      = some (pyLower (strip s)) := by
  have hm : mergeFields f (to_payload row tm gm) "Firm Name"
      = some (Value.str (strip s)) := by
    rw [mergeFields_apply, lastLookup_payload_FirmName, hrow]
    show pick (some (sanitize (Value.str s))) _ = _
    rw [sanitize_str_eq s h1 h2]
    rfl
  show (match mergeFields f (to_payload row tm gm) "Firm Name" with
        | some v => if pyTruthy v = true then some (pyLower (strip (pyStr v))) else Option.none
        | Option.none => Option.none) = some (pyLower (strip s))
  rw [hm]
  simp [pyTruthy, pyStr, h1, strip_strip]

/-! Equation lemmas for `runRows` and the run-one master invariant. -/

theorem runRows_nil (tm gm : LookupMap) (ex : String → Option Nat) (t : TableState) :
    runRows tm gm [] ex t
      = { table := t, existing := ex, updates := 0, creates := 0, errors := 0,
          log := [] } := rfl

theorem runRows_cons_skip (tm gm : LookupMap) (r : Row) (rows : List Row)
    (ex : String → Option Nat) (t : TableState)
    (h : strip ((r "Firm").getD "") = "") :
    runRows tm gm (r :: rows) ex t
      = { runRows tm gm rows ex t with
          log := Option.none :: (runRows tm gm rows ex t).log } := by
  simp only [runRows]
  rw [if_pos h]

theorem runRows_cons_update (tm gm : LookupMap) (r : Row) (rows : List Row)
    (ex : String → Option Nat) (t : TableState) (i : Nat)
    (h : ¬ strip ((r "Firm").getD "") = "")
    (hex : ex (pyLower (strip ((r "Firm").getD ""))) = some i) :
    runRows tm gm (r :: rows) ex t
      = { runRows tm gm rows ex (tableUpdate t i (to_payload r tm gm)) with
          updates := (runRows tm gm rows ex (tableUpdate t i (to_payload r tm gm))).updates + 1,
          log := some (UpsertOp.update (pyLower (strip ((r "Firm").getD ""))) i
              (to_payload r tm gm))
            :: (runRows tm gm rows ex (tableUpdate t i (to_payload r tm gm))).log } := by
  simp only [runRows]
  rw [if_neg h, hex]

theorem runRows_cons_create (tm gm : LookupMap) (r : Row) (rows : List Row)
    (ex : String → Option Nat) (t : TableState)
    (h : ¬ strip ((r "Firm").getD "") = "")
    (hex : ex (pyLower (strip ((r "Firm").getD ""))) = Option.none) :
    runRows tm gm (r :: rows) ex t
      = { runRows tm gm rows
            (updFun ex (pyLower (strip ((r "Firm").getD ""))) t.nextId)
            (tableCreate t (to_payload r tm gm)) with
          creates := (runRows tm gm rows
            (updFun ex (pyLower (strip ((r "Firm").getD ""))) t.nextId)
            (tableCreate t (to_payload r tm gm))).creates + 1,
          log := some (UpsertOp.create (pyLower (strip ((r "Firm").getD ""))) t.nextId
              (to_payload r tm gm))
            :: (runRows tm gm rows
              (updFun ex (pyLower (strip ((r "Firm").getD ""))) t.nextId)
              (tableCreate t (to_payload r tm gm))).log } := by
  simp only [runRows]
  rw [if_neg h, hex]

theorem ids_map_preserved (l : List TableRec) (g : TableRec → TableRec)
    (h : ∀ r ∈ l, (g r).id = r.id) :
    (l.map g).map TableRec.id = l.map TableRec.id := by
  rw [List.map_map]
  exact List.map_congr_left h

theorem payloadsFor_cons_update (k : String) (i : Nat) (p : List (String × Value))
    (L : List (Option UpsertOp)) (j : Nat) :
    payloadsFor (some (UpsertOp.update k i p) :: L) j
      = if i = j then p :: payloadsFor L j else payloadsFor L j := rfl

theorem payloadsFor_cons_create (k : String) (i : Nat) (p : List (String × Value))
    (L : List (Option UpsertOp)) (j : Nat) :
    payloadsFor (some (UpsertOp.create k i p) :: L) j
      = if i = j then p :: payloadsFor L j else payloadsFor L j := rfl

theorem opsForKey_cons_none (L : List (Option UpsertOp)) (k : String) :
    opsForKey (Option.none :: L) k = opsForKey L k := rfl

theorem opsForKey_cons_some (op : UpsertOp) (L : List (Option UpsertOp)) (k : String) :
    opsForKey (some op :: L) k
      = if opKey op = k then op :: opsForKey L k else opsForKey L k := rfl

theorem runRows_master (tm gm : LookupMap) :
    ∀ (rows : List Row) (ex : String → Option Nat) (t : TableState),
    (∀ k, ex k = lastFirmId t.records k) →
    (t.records.map TableRec.id).Nodup →
    (∀ r ∈ t.records, r.id < t.nextId) →
    (∀ r ∈ rows, goodRow r) →
    MasterInv tm gm rows ex t (runRows tm gm rows ex t) := by
  intro rows
  induction rows with
  | nil =>
      intro ex t h1 h2 h3 _
      rw [runRows_nil]
      exact
        { inv := h1
          nodup := h2
          bound := h3
          stable := fun _ _ h => h
          compat := trivial
          chara := fun r hr => Or.inl ⟨r, hr, rfl, rfl⟩ }
  | cons r rows ih =>
      intro ex t h1 h2 h3 h4
      have h4t : ∀ r ∈ rows, goodRow r := fun x hx => h4 x (List.mem_cons_of_mem _ hx)
      by_cases hskip : strip ((r "Firm").getD "") = ""
      · -- skipped row: nothing changes except a `none` log entry
        rw [runRows_cons_skip tm gm r rows ex t hskip]
        obtain ⟨inv, nodup, bound, stable, compat, chara⟩ := ih ex t h1 h2 h3 h4t
        exact
          { inv := inv
            nodup := nodup
            bound := bound
            stable := stable
            compat := ⟨by rw [if_pos hskip], compat⟩
            chara := chara }
      · -- processed row
        obtain ⟨s, hs, hstrip⟩ : ∃ s, r "Firm" = some s ∧ strip s ≠ "" := by
          cases hg : r "Firm" with
          | some s => exact ⟨s, rfl, by simpa [hg] using hskip⟩
          | none => simp [hg, strip_empty] at hskip
        have hkey : pyLower (strip ((r "Firm").getD "")) = pyLower (strip s) := by
          rw [hs]
          rfl
        have hph : pyLower (strip s) ∉ placeholders := by
          have hg := h4 r (List.mem_cons_self _ _)
          unfold goodRow at hg
          rw [hs] at hg
          exact hg hstrip
        cases hex : ex (pyLower (strip ((r "Firm").getD ""))) with
        | some i =>
            -- update branch
            have hlast : lastFirmId t.records (pyLower (strip s)) = some i := by
              rw [← hkey, ← h1]
              exact hex
            obtain ⟨rx, hrxmem, hrxid, hrxkey⟩ :=
              lastFirmId_mem t.records (pyLower (strip s)) i hlast
            have hilt : i < t.nextId := hrxid ▸ h3 rx hrxmem
            have hpres : ∀ r0 ∈ t.records,
                ((fun r0 => if r0.id = i
                    then { r0 with fields := mergeFields r0.fields (to_payload r tm gm) }
                    else r0) r0).id = r0.id ∧
                recKey ((fun r0 => if r0.id = i
                    then { r0 with fields := mergeFields r0.fields (to_payload r tm gm) }
                    else r0) r0) = recKey r0 := by
              intro r0 hr0
              by_cases hid : r0.id = i
              · have hr0x : r0 = rx :=
                  List.inj_on_of_nodup_map h2 hr0 hrxmem (by rw [hid, hrxid])
                refine ⟨by simp [hid], ?_⟩
                show recKey (if r0.id = i
                    then { r0 with fields := mergeFields r0.fields (to_payload r tm gm) }
                    else r0) = recKey r0
                rw [if_pos hid]
                have hrem : recKey { r0 with
                    fields := mergeFields r0.fields (to_payload r tm gm) }
                    = some (pyLower (strip s)) :=
                  recKey_merge r0.fields r tm gm r0.id s hs hstrip hph
                rw [hrem, hr0x, hrxkey]
              · simp [hid]
            have hA : ∀ k, ex k
                = lastFirmId (tableUpdate t i (to_payload r tm gm)).records k := by
              intro k
              rw [h1 k]
              exact (lastFirmId_map_preserved t.records _ hpres k).symm
            have hB : ((tableUpdate t i (to_payload r tm gm)).records.map
                TableRec.id).Nodup := by
              rw [show (tableUpdate t i (to_payload r tm gm)).records
                  = t.records.map _ from rfl,
                ids_map_preserved t.records _ (fun r0 hr0 => (hpres r0 hr0).1)]
              exact h2
            have hC : ∀ r0 ∈ (tableUpdate t i (to_payload r tm gm)).records,
                r0.id < (tableUpdate t i (to_payload r tm gm)).nextId := by
              intro r0 hr0
              obtain ⟨r1, hr1, rfl⟩ := List.mem_map.mp hr0
              rw [(hpres r1 hr1).1]
              exact h3 r1 hr1
            obtain ⟨inv, nodup, bound, stable, compat, chara⟩ :=
              ih ex (tableUpdate t i (to_payload r tm gm)) hA hB hC h4t
            rw [runRows_cons_update tm gm r rows ex t i hskip hex]
            refine
              { inv := inv
                nodup := nodup
                bound := bound
                stable := stable
                compat := ?_
                chara := ?_ }
            · refine ⟨?_, compat⟩
              rw [if_neg hskip]
              exact ⟨UpsertOp.update (pyLower (strip ((r "Firm").getD ""))) i
                  (to_payload r tm gm),
                rfl, rfl, rfl, stable _ i hex⟩
            · intro r' hr'
              rcases chara r' hr' with ⟨r0', hr0', hid', hf'⟩ | ⟨hb', hf'⟩
              · obtain ⟨r0, hr0, rfl⟩ := List.mem_map.mp hr0'
                by_cases hid0 : r0.id = i
                · rw [if_pos hid0] at hid' hf'
                  have hid2 : r0.id = r'.id := hid'
                  have hrid : r'.id = i := hid2.symm.trans hid0
                  refine Or.inl ⟨r0, hr0, hid2, ?_⟩
                  rw [payloadsFor_cons_update, if_pos hrid.symm]
                  exact hf'
                · rw [if_neg hid0] at hid' hf'
                  have hrid : r'.id ≠ i := by rw [← hid']; exact hid0
                  refine Or.inl ⟨r0, hr0, hid', ?_⟩
                  rw [payloadsFor_cons_update, if_neg (Ne.symm hrid)]
                  exact hf'
              · refine Or.inr ⟨hb', ?_⟩
                have hrid : r'.id ≠ i := by
                  intro hcontra
                  rw [hcontra] at hb'
                  exact absurd hb' (by simpa using hilt)
                rw [payloadsFor_cons_update, if_neg (Ne.symm hrid)]
                exact hf'
        | none =>
            -- create branch
            have hrk :
                recKey { id := t.nextId, fields := fieldsOfPayload (to_payload r tm gm) }
                = some (pyLower (strip s)) :=
              recKey_merge emptyFields r tm gm t.nextId s hs hstrip hph
            have hA : ∀ k,
                updFun ex (pyLower (strip ((r "Firm").getD ""))) t.nextId k
                = lastFirmId (tableCreate t (to_payload r tm gm)).records k := by
              intro k
              rw [show (tableCreate t (to_payload r tm gm)).records
                  = t.records
                    ++ [{ id := t.nextId, fields := fieldsOfPayload (to_payload r tm gm) }]
                  from rfl,
                lastFirmId_append_single, hrk, hkey]
              by_cases hk : k = pyLower (strip s)
              · subst hk
                simp [updFun]
              · rw [show updFun ex (pyLower (strip s)) t.nextId k = ex k
                    from if_neg hk]
                rw [if_neg (by simpa using fun hh : pyLower (strip s) = k => hk hh.symm),
                  pick_none]
                exact h1 k
            have hB : ((tableCreate t (to_payload r tm gm)).records.map
                TableRec.id).Nodup := by
              rw [show (tableCreate t (to_payload r tm gm)).records.map TableRec.id
                  = t.records.map TableRec.id ++ [t.nextId] by
                  simp [tableCreate]]
              rw [List.nodup_append]
              refine ⟨h2, List.nodup_singleton _, ?_⟩
              intro a ha hb
              obtain ⟨r1, hr1, rfl⟩ := List.mem_map.mp ha
              have : r1.id = t.nextId := by simpa using hb
              exact absurd this (Nat.ne_of_lt (h3 r1 hr1))
            have hC : ∀ r0 ∈ (tableCreate t (to_payload r tm gm)).records,
                r0.id < (tableCreate t (to_payload r tm gm)).nextId := by
              intro r0 hr0
              rcases List.mem_append.mp hr0 with hin | hin
              · exact Nat.lt_succ_of_lt (h3 r0 hin)
              · rw [show
                    r0 = { id := t.nextId, fields := fieldsOfPayload (to_payload r tm gm) }
                    by simpa using hin]
                exact Nat.lt_succ_self _
            obtain ⟨inv, nodup, bound, stable, compat, chara⟩ :=
              ih (updFun ex (pyLower (strip ((r "Firm").getD ""))) t.nextId)
                (tableCreate t (to_payload r tm gm)) hA hB hC h4t
            rw [runRows_cons_create tm gm r rows ex t hskip hex]
            refine
              { inv := inv
                nodup := nodup
                bound := bound
                stable := ?_
                compat := ?_
                chara := ?_ }
            · intro k j hk
              refine stable k j ?_
              have hkne : k ≠ pyLower (strip ((r "Firm").getD "")) := by
                intro hcontra
                rw [hcontra, hex] at hk
                exact Option.noConfusion hk
              rw [show updFun ex (pyLower (strip ((r "Firm").getD ""))) t.nextId k = ex k
                  from if_neg hkne]
              exact hk
            · refine ⟨?_, compat⟩
              rw [if_neg hskip]
              refine ⟨UpsertOp.create (pyLower (strip ((r "Firm").getD ""))) t.nextId
                  (to_payload r tm gm), rfl, rfl, rfl, ?_⟩
              refine stable _ t.nextId ?_
              show updFun ex (pyLower (strip ((r "Firm").getD ""))) t.nextId
                  (pyLower (strip ((r "Firm").getD ""))) = some t.nextId
              simp [updFun]
            · intro r' hr'
              rcases chara r' hr' with ⟨r0', hr0', hid', hf'⟩ | ⟨hb', hf'⟩
              · rcases List.mem_append.mp hr0' with hin | hin
                · refine Or.inl ⟨r0', hin, hid', ?_⟩
                  have hrid : r'.id ≠ t.nextId := by
                    rw [← hid']
                    exact Nat.ne_of_lt (h3 r0' hin)
                  rw [payloadsFor_cons_create, if_neg (Ne.symm hrid)]
                  exact hf'
                · have hr0nr :
                      r0' = { id := t.nextId, fields := fieldsOfPayload (to_payload r tm gm) }
                      := by
                    simpa using hin
                  have hrid : r'.id = t.nextId := by
                    rw [← hid', hr0nr]
                  refine Or.inr ⟨hrid.ge, ?_⟩
                  rw [payloadsFor_cons_create, if_pos hrid.symm]
                  rw [hr0nr] at hf'
                  exact hf'
              · have hb0 : t.nextId ≤ r'.id :=
                  Nat.le_of_succ_le hb'
                have hrid : r'.id ≠ t.nextId := by
                  intro hcontra
                  rw [hcontra] at hb'
                  exact absurd hb' (Nat.not_succ_le_self _)
                refine Or.inr ⟨hb0, ?_⟩
                rw [payloadsFor_cons_create, if_neg (Ne.symm hrid)]
                exact hf'

/-! The second run: replaying rows against a compatible index never creates,
updates once per processed row, reissues the logged calls as updates, and
merges each record with exactly the payloads that target it. -/

theorem runRows_replay (tm gm : LookupMap) :
    ∀ (rows : List Row) (L : List (Option UpsertOp)) (ex : String → Option Nat)
      (t : TableState),
    Compat tm gm ex rows L →
    (runRows tm gm rows ex t).log = updatifyLog L ∧
    (runRows tm gm rows ex t).creates = 0 ∧
    (runRows tm gm rows ex t).updates = rows.countP nonSkipB ∧
    (runRows tm gm rows ex t).errors = 0 ∧
    (runRows tm gm rows ex t).table.nextId = t.nextId ∧
    (runRows tm gm rows ex t).table.records
      = t.records.map (fun r0 =>
          { id := r0.id,
            fields := mergeMany r0.fields (payloadsFor (updatifyLog L) r0.id) }) := by
  intro rows
  induction rows with
  | nil =>
      intro L ex t hc
      cases L with
      | nil =>
          rw [runRows_nil]
          refine ⟨rfl, rfl, rfl, rfl, rfl, ?_⟩
          have heta : (fun r0 : TableRec =>
              ({ id := r0.id,
                 fields := mergeMany r0.fields (payloadsFor (updatifyLog []) r0.id) }
               : TableRec)) = fun r0 => r0 := by
            funext r0
            rfl
          rw [heta, List.map_id']
      | cons e L => exact absurd hc (by simp [Compat])
  | cons r rows ih =>
      intro L ex t hc
      cases L with
      | nil => exact absurd hc (by simp [Compat])
      | cons e L =>
          obtain ⟨h1c, h2c⟩ := hc
          by_cases hskip : strip ((r "Firm").getD "") = ""
          · rw [if_pos hskip] at h1c
            subst h1c
            rw [runRows_cons_skip tm gm r rows ex t hskip]
            obtain ⟨hlog, hcr, hup, herr, hnid, hrec⟩ := ih L ex t h2c
            refine ⟨?_, hcr, ?_, herr, hnid, ?_⟩
            · show Option.none :: (runRows tm gm rows ex t).log
                = updatifyLog (Option.none :: L)
              rw [hlog]
              rfl
            · show (runRows tm gm rows ex t).updates = (r :: rows).countP nonSkipB
              rw [hup, List.countP_cons_of_neg]
              simp [nonSkipB, hskip]
            · show (runRows tm gm rows ex t).table.records = _
              rw [hrec]
              rfl
          · rw [if_neg hskip] at h1c
            obtain ⟨op, he, hopk, hopp, hexk⟩ := h1c
            subst he
            rw [runRows_cons_update tm gm r rows ex t (opId op) hskip hexk]
            obtain ⟨hlog, hcr, hup, herr, hnid, hrec⟩ :=
              ih L ex (tableUpdate t (opId op) (to_payload r tm gm)) h2c
            refine ⟨?_, hcr, ?_, herr, hnid, ?_⟩
            · show some (UpsertOp.update (pyLower (strip ((r "Firm").getD ""))) (opId op)
                  (to_payload r tm gm))
                :: (runRows tm gm rows ex
                    (tableUpdate t (opId op) (to_payload r tm gm))).log
                = updatifyLog (some op :: L)
              rw [show updatifyLog (some op :: L)
                  = some (updatifyOp op) :: updatifyLog L from rfl,
                updatifyOp_eq, hopk, hopp, hlog]
            · show (runRows tm gm rows ex
                  (tableUpdate t (opId op) (to_payload r tm gm))).updates + 1
                = (r :: rows).countP nonSkipB
              rw [hup, List.countP_cons_of_pos]
              simp [nonSkipB, hskip]
            · show (runRows tm gm rows ex
                  (tableUpdate t (opId op) (to_payload r tm gm))).table.records = _
              rw [hrec,
                show (tableUpdate t (opId op) (to_payload r tm gm)).records
                  = t.records.map (fun r0 => if r0.id = opId op
                      then { r0 with fields := mergeFields r0.fields (to_payload r tm gm) }
                      else r0) from rfl,
                List.map_map]
              refine List.map_congr_left ?_
              intro r0 _
              show (fun r1 : TableRec =>
                  ({ id := r1.id,
                     fields := mergeMany r1.fields (payloadsFor (updatifyLog L) r1.id) }
                   : TableRec))
                  (if r0.id = opId op
                   then { r0 with fields := mergeFields r0.fields (to_payload r tm gm) }
                   else r0)
                = _
              rw [show updatifyLog (some op :: L)
                  = some (updatifyOp op) :: updatifyLog L from rfl,
                updatifyOp_eq, hopp]
              by_cases hi : r0.id = opId op
              · rw [if_pos hi, payloadsFor_cons_update, if_pos hi.symm]
                rfl
              · rw [if_neg hi, payloadsFor_cons_update,
                  if_neg (fun hh : opId op = r0.id => hi hh.symm)]

/-! Transport of `Compat` along pointwise-equal index maps, and the per-key
shape of the log when a key is (or is not) present in the starting index. -/

theorem Compat_ext (tm gm : LookupMap) (ex ex' : String → Option Nat)
    (h : ∀ k, ex k = ex' k) :
    ∀ (rows : List Row) (L : List (Option UpsertOp)),
    Compat tm gm ex rows L → Compat tm gm ex' rows L := by
  intro rows
  induction rows with
  | nil =>
      intro L hc
      cases L with
      | nil => trivial
      | cons e L => exact absurd hc (by simp [Compat])
  | cons r rows ih =>
      intro L hc
      cases L with
      | nil => exact absurd hc (by simp [Compat])
      | cons e L =>
          obtain ⟨h1, h2⟩ := hc
          refine ⟨?_, ih L h2⟩
          by_cases hskip : strip ((r "Firm").getD "") = ""
          · rwa [if_pos hskip] at h1 ⊢
          · rw [if_neg hskip] at h1 ⊢
            obtain ⟨op, he, hk, hp, hex⟩ := h1
            exact ⟨op, he, hk, hp, (h _).symm.trans hex⟩

theorem runRows_ops_present (tm gm : LookupMap) :
    ∀ (rows : List Row) (ex : String → Option Nat) (t : TableState) (k : String)
      (i : Nat), ex k = some i →
    (∀ op ∈ opsForKey (runRows tm gm rows ex t).log k,
        ∃ q, op = UpsertOp.update k i q) ∧
    (opsForKey (runRows tm gm rows ex t).log k).length
      = rows.countP (keyMatchB k) := by
  intro rows
  induction rows with
  | nil =>
      intro ex t k i _
      exact ⟨fun op h => absurd h (by simp [runRows_nil, opsForKey]), rfl⟩
  | cons r rows ih =>
      intro ex t k i hex
      by_cases hskip : strip ((r "Firm").getD "") = ""
      · rw [runRows_cons_skip tm gm r rows ex t hskip]
        obtain ⟨hall, hlen⟩ := ih ex t k i hex
        refine ⟨hall, ?_⟩
        show (opsForKey (runRows tm gm rows ex t).log k).length
          = (r :: rows).countP (keyMatchB k)
        rw [hlen, List.countP_cons_of_neg]
        simp [keyMatchB, hskip]
      · cases hexk : ex (pyLower (strip ((r "Firm").getD ""))) with
        | some j =>
            rw [runRows_cons_update tm gm r rows ex t j hskip hexk]
            obtain ⟨hall, hlen⟩ :=
              ih ex (tableUpdate t j (to_payload r tm gm)) k i hex
            by_cases hk : pyLower (strip ((r "Firm").getD "")) = k
            · have hji : j = i := by
                rw [hk, hex] at hexk
                exact (Option.some.injEq _ _ ▸ hexk).symm ▸ rfl
              constructor
              · intro op hop
                rw [show opsForKey (some (UpsertOp.update
                      (pyLower (strip ((r "Firm").getD ""))) j (to_payload r tm gm))
                      :: (runRows tm gm rows ex
                        (tableUpdate t j (to_payload r tm gm))).log) k
                    = UpsertOp.update (pyLower (strip ((r "Firm").getD ""))) j
                        (to_payload r tm gm)
                      :: opsForKey (runRows tm gm rows ex
                        (tableUpdate t j (to_payload r tm gm))).log k by
                    rw [opsForKey_cons_some]
                    exact if_pos hk] at hop
                rcases List.mem_cons.mp hop with rfl | hop
                · exact ⟨to_payload r tm gm, by rw [hk, hji]⟩
                · exact hall op hop
              · rw [show opsForKey (some (UpsertOp.update
                      (pyLower (strip ((r "Firm").getD ""))) j (to_payload r tm gm))
                      :: (runRows tm gm rows ex
                        (tableUpdate t j (to_payload r tm gm))).log) k
                    = UpsertOp.update (pyLower (strip ((r "Firm").getD ""))) j
                        (to_payload r tm gm)
                      :: opsForKey (runRows tm gm rows ex
                        (tableUpdate t j (to_payload r tm gm))).log k by
                    rw [opsForKey_cons_some]
                    exact if_pos hk]
                rw [List.length_cons, hlen, List.countP_cons_of_pos]
                simp [keyMatchB, hskip, hk]
            · constructor
              · intro op hop
                rw [show opsForKey (some (UpsertOp.update
                      (pyLower (strip ((r "Firm").getD ""))) j (to_payload r tm gm))
                      :: (runRows tm gm rows ex
                        (tableUpdate t j (to_payload r tm gm))).log) k
                    = opsForKey (runRows tm gm rows ex
                        (tableUpdate t j (to_payload r tm gm))).log k by
                    rw [opsForKey_cons_some]
                    exact if_neg hk] at hop
                exact hall op hop
              · rw [show opsForKey (some (UpsertOp.update
                      (pyLower (strip ((r "Firm").getD ""))) j (to_payload r tm gm))
                      :: (runRows tm gm rows ex
                        (tableUpdate t j (to_payload r tm gm))).log) k
                    = opsForKey (runRows tm gm rows ex
                        (tableUpdate t j (to_payload r tm gm))).log k by
                    rw [opsForKey_cons_some]
                    exact if_neg hk]
                rw [hlen, List.countP_cons_of_neg]
                simp [keyMatchB, hk]
        | none =>
            have hk : pyLower (strip ((r "Firm").getD "")) ≠ k := by
              intro hcontra
              rw [hcontra, hex] at hexk
              exact Option.noConfusion hexk
            rw [runRows_cons_create tm gm r rows ex t hskip hexk]
            have hex' : updFun ex (pyLower (strip ((r "Firm").getD ""))) t.nextId k
                = some i := by
              rw [show updFun ex (pyLower (strip ((r "Firm").getD ""))) t.nextId k
                  = ex k from if_neg (fun hh => hk hh.symm)]
              exact hex
            obtain ⟨hall, hlen⟩ :=
              ih (updFun ex (pyLower (strip ((r "Firm").getD ""))) t.nextId)
                (tableCreate t (to_payload r tm gm)) k i hex'
            have hops : opsForKey (some (UpsertOp.create
                  (pyLower (strip ((r "Firm").getD ""))) t.nextId (to_payload r tm gm))
                  :: (runRows tm gm rows
                    (updFun ex (pyLower (strip ((r "Firm").getD ""))) t.nextId)
                    (tableCreate t (to_payload r tm gm))).log) k
                = opsForKey (runRows tm gm rows
                    (updFun ex (pyLower (strip ((r "Firm").getD ""))) t.nextId)
                    (tableCreate t (to_payload r tm gm))).log k := by
              rw [opsForKey_cons_some]
              exact if_neg hk
            refine ⟨?_, ?_⟩
            · intro op hop
              rw [hops] at hop
              exact hall op hop
            · rw [hops, hlen, List.countP_cons_of_neg]
              simp [keyMatchB, hk]

theorem runRows_ops_absent (tm gm : LookupMap) :
    ∀ (rows : List Row) (ex : String → Option Nat) (t : TableState) (k : String),
    ex k = Option.none →
    (opsForKey (runRows tm gm rows ex t).log k = [] ∧
        rows.countP (keyMatchB k) = 0) ∨
    (∃ i p tail,
        opsForKey (runRows tm gm rows ex t).log k = UpsertOp.create k i p :: tail ∧
        tail.length + 1 = rows.countP (keyMatchB k) ∧
        ∀ op ∈ tail, ∃ q, op = UpsertOp.update k i q) := by
  intro rows
  induction rows with
  | nil =>
      intro ex t k _
      exact Or.inl ⟨by simp [runRows_nil, opsForKey], rfl⟩
  | cons r rows ih =>
      intro ex t k hex
      by_cases hskip : strip ((r "Firm").getD "") = ""
      · rw [runRows_cons_skip tm gm r rows ex t hskip]
        have hcnt : (r :: rows).countP (keyMatchB k) = rows.countP (keyMatchB k) := by
          rw [List.countP_cons_of_neg]
          simp [keyMatchB, hskip]
        rcases ih ex t k hex with ⟨ho, hc⟩ | ⟨i, p, tail, ho, hl, ha⟩
        · exact Or.inl ⟨ho, by rw [hcnt]; exact hc⟩
        · exact Or.inr ⟨i, p, tail, ho, by rw [hcnt]; exact hl, ha⟩
      · cases hexk : ex (pyLower (strip ((r "Firm").getD ""))) with
        | some j =>
            have hk : pyLower (strip ((r "Firm").getD "")) ≠ k := by
              intro hcontra
              rw [hcontra, hex] at hexk
              exact Option.noConfusion hexk
            rw [runRows_cons_update tm gm r rows ex t j hskip hexk]
            have hcnt : (r :: rows).countP (keyMatchB k) = rows.countP (keyMatchB k) := by
              rw [List.countP_cons_of_neg]
              simp [keyMatchB, hk]
            have hops : opsForKey (some (UpsertOp.update
                  (pyLower (strip ((r "Firm").getD ""))) j (to_payload r tm gm))
                  :: (runRows tm gm rows ex
                    (tableUpdate t j (to_payload r tm gm))).log) k
                = opsForKey (runRows tm gm rows ex
                    (tableUpdate t j (to_payload r tm gm))).log k := by
              rw [opsForKey_cons_some]
              exact if_neg hk
            rcases ih ex (tableUpdate t j (to_payload r tm gm)) k hex with
              ⟨ho, hc⟩ | ⟨i, p, tail, ho, hl, ha⟩
            · exact Or.inl ⟨by rw [hops]; exact ho, by rw [hcnt]; exact hc⟩
            · exact Or.inr ⟨i, p, tail, by rw [hops]; exact ho,
                by rw [hcnt]; exact hl, ha⟩
        | none =>
            rw [runRows_cons_create tm gm r rows ex t hskip hexk]
            by_cases hk : pyLower (strip ((r "Firm").getD "")) = k
            · subst hk
              obtain ⟨hall, hlen⟩ :=
                runRows_ops_present tm gm rows
                  (updFun ex (pyLower (strip ((r "Firm").getD ""))) t.nextId)
                  (tableCreate t (to_payload r tm gm))
                  (pyLower (strip ((r "Firm").getD ""))) t.nextId
                  (by simp [updFun])
              refine Or.inr ⟨t.nextId, to_payload r tm gm, _, ?_, ?_, hall⟩
              · rw [opsForKey_cons_some]
                exact if_pos rfl
              · rw [hlen, List.countP_cons_of_pos]
                simp [keyMatchB, hskip]
            · have hex' : updFun ex (pyLower (strip ((r "Firm").getD ""))) t.nextId k
                  = Option.none := by
                rw [show updFun ex (pyLower (strip ((r "Firm").getD ""))) t.nextId k
                    = ex k from if_neg (fun hh => hk hh.symm)]
                exact hex
              have hcnt : (r :: rows).countP (keyMatchB k)
                  = rows.countP (keyMatchB k) := by
                rw [List.countP_cons_of_neg]
                simp [keyMatchB, hk]
              have hops : opsForKey (some (UpsertOp.create
                    (pyLower (strip ((r "Firm").getD ""))) t.nextId (to_payload r tm gm))
                    :: (runRows tm gm rows
                      (updFun ex (pyLower (strip ((r "Firm").getD ""))) t.nextId)
                      (tableCreate t (to_payload r tm gm))).log) k
                  = opsForKey (runRows tm gm rows
                      (updFun ex (pyLower (strip ((r "Firm").getD ""))) t.nextId)
                      (tableCreate t (to_payload r tm gm))).log k := by
                rw [opsForKey_cons_some]
                exact if_neg hk
              rcases ih (updFun ex (pyLower (strip ((r "Firm").getD ""))) t.nextId)
                  (tableCreate t (to_payload r tm gm)) k hex' with
                ⟨ho, hc⟩ | ⟨i, p, tail, ho, hl, ha⟩
              · exact Or.inl ⟨by rw [hops]; exact ho, by rw [hcnt]; exact hc⟩
              · exact Or.inr ⟨i, p, tail, by rw [hops]; exact ho,
                  by rw [hcnt]; exact hl, ha⟩

/-! Claim theorems. -/

/-- C4: `compute_verified` returns true iff the website cell, trimmed and
lower-cased, starts with the "http" scheme token AND the headquarters
city/state cell, trimmed and lower-cased, is neither empty nor a placeholder;
in particular it is true for {Website: "https://acme.vc", HQ: "Boston, MA"},
false for a schemeless website, and false for a placeholder city. -/
theorem c4_compute_verified_iff :
    (∀ row : Row,
      compute_verified row = true
        ↔ (pyStartsWith (pyLower (strip ((row "Website").getD ""))) "http" = true ∧
           pyLower (strip ((row "HQ City/State").getD ""))
             ∉ ["", "tbd", "unknown", "n/a"])) ∧
    compute_verified rowC4a = true ∧
    compute_verified rowC4b = false ∧
    compute_verified rowC4c = false := by
  refine ⟨?_, rfl, rfl, rfl⟩
  intro row
  unfold compute_verified
  simp

/-- C8: `sanitize` trims string input, maps blank or placeholder strings
("", " ", "TBD", "tbd", "Unknown", "N/A", ...) to the null marker, returns
the trimmed string otherwise, and passes every non-string value through
unchanged. -/
theorem c8_sanitize :
    (∀ s : String, sanitize (Value.str s)
      = if strip s = "" ∨ pyLower (strip s) ∈ placeholders
        then Value.none else Value.str (strip s)) ∧
    (∀ v : Value, (∀ s, v ≠ Value.str s) → sanitize v = v) ∧
    sanitize (Value.str "") = Value.none ∧
    sanitize (Value.str " ") = Value.none ∧
    sanitize (Value.str "TBD") = Value.none ∧
    sanitize (Value.str "tbd") = Value.none ∧
    sanitize (Value.str "Unknown") = Value.none ∧
    sanitize (Value.str "N/A") = Value.none ∧
    sanitize (Value.str "  Acme Capital  ") = Value.str "Acme Capital" := by
  refine ⟨fun _ => rfl, ?_, rfl, rfl, rfl, rfl, rfl, rfl, rfl⟩
  intro v h
  cases v with
  | none => rfl
  | str s => exact absurd rfl (h s)
  | bool b => rfl
  | list l => rfl

/-- C8 witness: a non-string value (a boolean) passes through `sanitize`
unchanged. -/
theorem c8_sanitize_witness : sanitize (Value.bool true) = Value.bool true :=
  c8_sanitize.2.1 (Value.bool true) (fun _ h => Value.noConfusion h)

/-- C9: `parse_list_field` rewrites semicolons to commas, splits on commas,
trims each token, and keeps — in source order, without deduplication —
exactly the non-empty, non-placeholder tokens; in particular
"Oncology; Immunology, , TBD" parses to ["Oncology", "Immunology"] and
duplicates are kept. -/
theorem c9_parse_list_field :
    (∀ s : String, parse_list_field (Value.str s)
      = ((pySplitComma (pyReplaceSemi s)).map strip).filter
          (fun item =>
            item != "" && !(["tbd", "unknown", "n/a", ""].contains (pyLower item)))) ∧
    (∀ s : String, (parse_list_field (Value.str s)).Sublist
        ((pySplitComma (pyReplaceSemi s)).map strip)) ∧
    parse_list_field (Value.str "Oncology; Immunology, , TBD")
      = ["Oncology", "Immunology"] ∧
    parse_list_field (Value.str "Oncology, Oncology")
      = ["Oncology", "Oncology"] := by
  have h1 : ∀ s : String, parse_list_field (Value.str s)
      = ((pySplitComma (pyReplaceSemi s)).map strip).filter
          (fun item =>
            item != "" && !(["tbd", "unknown", "n/a", ""].contains (pyLower item))) := by
    intro s
    by_cases hs : s = ""
    · subst hs
      rfl
    · show (if s = "" then [] else _) = _
      rw [if_neg hs]
  refine ⟨h1, fun s => ?_, rfl, rfl⟩
  rw [h1 s]
  exact List.filter_sublist _

/-- C6 counterexample: a row whose firm name is the placeholder "TBD" is NOT
skipped — the run issues a create call for it (the claim asserts no create is
issued for placeholder-named rows). -/
theorem c6_counterexample :
    pyLower (strip ((rowTBD "Firm").getD "")) ∈ placeholders ∧
    (upsert_firms [rowTBD] emptyLookup emptyLookup emptyTable).creates = 1 ∧
    (upsert_firms [rowTBD] emptyLookup emptyLookup emptyTable).log
      = [some (UpsertOp.create "tbd" 0 (to_payload rowTBD emptyLookup emptyLookup))] := by
  exact ⟨by decide, rfl, rfl⟩

/-- C6 (amended): a row is skipped — no create, no update, no error count,
no table change, a `none` log entry — exactly when its firm name is empty
after trimming; placeholder names such as "TBD" are not skipped. -/
theorem c6_amended (tm gm : LookupMap) (r : Row) (rows : List Row)
    (ex : String → Option Nat) (t : TableState)
    (h : strip ((r "Firm").getD "") = "") :
    (runRows tm gm (r :: rows) ex t).creates = (runRows tm gm rows ex t).creates ∧
    (runRows tm gm (r :: rows) ex t).updates = (runRows tm gm rows ex t).updates ∧
    (runRows tm gm (r :: rows) ex t).errors = (runRows tm gm rows ex t).errors ∧
    (runRows tm gm (r :: rows) ex t).table = (runRows tm gm rows ex t).table ∧
    (runRows tm gm (r :: rows) ex t).log
      = Option.none :: (runRows tm gm rows ex t).log := by
  rw [runRows_cons_skip tm gm r rows ex t h]
  exact ⟨rfl, rfl, rfl, rfl, rfl⟩

/-- C6 witness: a row whose firm cell is whitespace-only is skipped. -/
theorem c6_amended_witness :
    (runRows emptyLookup emptyLookup [rowBlank] (fun _ => Option.none) emptyTable).creates
      = (runRows emptyLookup emptyLookup [] (fun _ => Option.none) emptyTable).creates ∧
    (runRows emptyLookup emptyLookup [rowBlank] (fun _ => Option.none) emptyTable).updates
      = (runRows emptyLookup emptyLookup [] (fun _ => Option.none) emptyTable).updates ∧
    (runRows emptyLookup emptyLookup [rowBlank] (fun _ => Option.none) emptyTable).errors
      = (runRows emptyLookup emptyLookup [] (fun _ => Option.none) emptyTable).errors ∧
    (runRows emptyLookup emptyLookup [rowBlank] (fun _ => Option.none) emptyTable).table
      = (runRows emptyLookup emptyLookup [] (fun _ => Option.none) emptyTable).table ∧
    (runRows emptyLookup emptyLookup [rowBlank] (fun _ => Option.none) emptyTable).log
      = Option.none
        :: (runRows emptyLookup emptyLookup [] (fun _ => Option.none) emptyTable).log :=
  c6_amended emptyLookup emptyLookup rowBlank [] (fun _ => Option.none) emptyTable
    (by decide)

/-- C7 counterexample: a row whose Verified cell is the empty string gets the
null marker in the payload, not `false` (sanitize runs before the boolean
coercion). -/
theorem c7_counterexample :
    lastLookup (to_payload rowVerifiedEmpty emptyLookup emptyLookup) "Verified"
      = some Value.none ∧
    lastLookup (to_payload rowVerifiedEmpty emptyLookup emptyLookup) "Verified"
      ≠ some (Value.bool false) := by
  exact ⟨rfl, by decide⟩

/-- C7 (amended): the Verified payload value is the boolean coercion of the
SANITIZED cell: true-set strings map to true; "false"/"0"/"no"/"n" map to
false; blank and placeholder cells become the null marker (the empty string
entry of the false set is unreachable after sanitize); any other string
passes through trimmed. -/
theorem c7_amended (row : Row) (tm gm : LookupMap) :
    lastLookup (to_payload row tm gm) "Verified"
      = some (coerceVerifiedVal (sanitize (toValue (row "Verified")))) ∧
    (∀ s : String,
      (pyLower (strip s) ∈ ["true", "1", "yes", "y"] →
        coerceVerifiedVal (sanitize (Value.str s)) = Value.bool true) ∧
      (pyLower (strip s) ∈ ["false", "0", "no", "n"] →
        coerceVerifiedVal (sanitize (Value.str s)) = Value.bool false) ∧
      (strip s = "" ∨ pyLower (strip s) ∈ placeholders →
        coerceVerifiedVal (sanitize (Value.str s)) = Value.none) ∧
      (strip s ≠ "" → pyLower (strip s) ∉ placeholders →
        pyLower (strip s) ∉ ["true", "1", "yes", "y"] →
        pyLower (strip s) ∉ ["false", "0", "no", "n", ""] →
        coerceVerifiedVal (sanitize (Value.str s)) = Value.str (strip s))) := by
  refine ⟨lastLookup_payload_Verified row tm gm, ?_⟩
  intro s
  refine ⟨?_, ?_, ?_, ?_⟩
  · intro h
    have hne : strip s ≠ "" := by
      intro hh
      rw [hh] at h
      exact absurd h (by decide)
    have hnp : pyLower (strip s) ∉ placeholders := by
      intro hp
      simp only [List.mem_cons, List.not_mem_nil, or_false] at h
      rcases h with h | h | h | h <;> rw [h] at hp <;> exact absurd hp (by decide)
    rw [sanitize_str_eq s hne hnp]
    show (if pyLower (strip (strip s)) ∈ ["true", "1", "yes", "y"]
          then Value.bool true
          else if pyLower (strip (strip s)) ∈ ["false", "0", "no", "n", ""]
          then Value.bool false else Value.str (strip s)) = Value.bool true
    rw [strip_strip, if_pos h]
  · intro h
    have hne : strip s ≠ "" := by
      intro hh
      rw [hh] at h
      exact absurd h (by decide)
    have hnp : pyLower (strip s) ∉ placeholders := by
      intro hp
      simp only [List.mem_cons, List.not_mem_nil, or_false] at h
      rcases h with h | h | h | h <;> rw [h] at hp <;> exact absurd hp (by decide)
    have hnt : pyLower (strip s) ∉ ["true", "1", "yes", "y"] := by
      intro ht
      simp only [List.mem_cons, List.not_mem_nil, or_false] at h
      rcases h with h | h | h | h <;> rw [h] at ht <;> exact absurd ht (by decide)
    rw [sanitize_str_eq s hne hnp]
    show (if pyLower (strip (strip s)) ∈ ["true", "1", "yes", "y"]
          then Value.bool true
          else if pyLower (strip (strip s)) ∈ ["false", "0", "no", "n", ""]
          then Value.bool false else Value.str (strip s)) = Value.bool false
    rw [strip_strip, if_neg hnt, if_pos]
    simp only [List.mem_cons, List.not_mem_nil, or_false] at h ⊢
    rcases h with h | h | h | h <;> simp [h]
  · intro h
    have hs : sanitize (Value.str s) = Value.none := by
      show (if strip s = "" ∨ pyLower (strip s) ∈ placeholders
            then Value.none else Value.str (strip s)) = Value.none
      exact if_pos h
    rw [hs]
    rfl
  · intro h1 h2 h3 h4
    rw [sanitize_str_eq s h1 h2]
    show (if pyLower (strip (strip s)) ∈ ["true", "1", "yes", "y"]
          then Value.bool true
          else if pyLower (strip (strip s)) ∈ ["false", "0", "no", "n", ""]
          then Value.bool false else Value.str (strip s)) = Value.str (strip s)
    rw [strip_strip, if_neg h3, if_neg h4]

/-- C7 witness: the true-set case at the concrete cell "Yes". -/
theorem c7_amended_witness :
    coerceVerifiedVal (sanitize (Value.str "Yes")) = Value.bool true :=
  ((c7_amended rowVerifiedEmpty emptyLookup emptyLookup).2 "Yes").1 (by decide)

/-- C1 counterexample: over the desired-name set {"Oncology", "ONCOLOGY"}
(two distinct members of one Python set) and an empty lookup table, the
reconciliation pass issues TWO create calls whose lower-cased trimmed display
names are both "oncology" — refuting the claim that no two creates share a
normalized name. -/
theorem c1_counterexample :
    (["Oncology", "ONCOLOGY"] : List String).Nodup ∧
    (get_or_create_lookup_table [] ["Oncology", "ONCOLOGY"] 0).2
      = ["Oncology", "ONCOLOGY"] ∧
    pyLower (strip "Oncology") = pyLower (strip "ONCOLOGY") := by
  exact ⟨by decide, rfl, rfl⟩

/-- C1 (amended): within one reconciliation pass the create calls are exactly
the distinct desired names whose lower-cased form is absent from the initial
mapping — so no display name is created twice, and no name matching an
existing record is created — but two desired names that differ only in casing
and are both absent each receive their own create call. -/
theorem c1_amended (recs : List (Option String × String)) (items : List String)
    (startId : Nat) (hnd : items.Nodup) :
    (get_or_create_lookup_table recs items startId).2
      = items.filter (fun item => ((lookupIndex recs) (pyLower item)).isNone) ∧
    (get_or_create_lookup_table recs items startId).2.Nodup ∧
    (∀ item ∈ items, ((lookupIndex recs) (pyLower item)).isSome = true →
      item ∉ (get_or_create_lookup_table recs items startId).2) := by
  refine ⟨rfl, ?_, ?_⟩
  · exact hnd.filter _
  · intro item _ hsome hinfilter
    have hp := List.of_mem_filter hinfilter
    rw [Option.isNone_iff_eq_none.mp hp] at hsome
    exact Bool.noConfusion hsome

/-- C1 witness: with one existing record "Oncology" and desired names
{"Oncology", "Immunology"}, only "Immunology" is created. -/
theorem c1_amended_witness :
    (get_or_create_lookup_table [(some "Oncology", "rec0")]
        ["Oncology", "Immunology"] 5).2
      = ["Oncology", "Immunology"].filter
          (fun item => ((lookupIndex [(some "Oncology", "rec0")]) (pyLower item)).isNone) ∧
    (get_or_create_lookup_table [(some "Oncology", "rec0")]
        ["Oncology", "Immunology"] 5).2.Nodup ∧
    (∀ item ∈ (["Oncology", "Immunology"] : List String),
      ((lookupIndex [(some "Oncology", "rec0")]) (pyLower item)).isSome = true →
      item ∉ (get_or_create_lookup_table [(some "Oncology", "rec0")]
        ["Oncology", "Immunology"] 5).2) :=
  c1_amended [(some "Oncology", "rec0")] ["Oncology", "Immunology"] 5 (by decide)

/-- C3 counterexample: for a row with no therapeutic-area cell, the payload
has NO entry for the relation field "Therapeutic Areas of Focus" — refuting
the claim that every remote field, the three relation fields included, is
present in every payload. -/
theorem c3_counterexample :
    lastLookup (to_payload rowAcme emptyLookup emptyLookup)
      "Therapeutic Areas of Focus" = Option.none ∧
    "Therapeutic Areas of Focus"
      ∉ (to_payload rowAcme emptyLookup emptyLookup).map Prod.fst := by
  exact ⟨rfl, by decide⟩

/-- C3 (amended): every payload carries a value for each of the seven scalar
fields of the field-name mapping, but each of the three relation fields is
present exactly when at least one parsed token of the corresponding cell
resolves to a truthy identifier — unresolved relation fields are left out of
the payload rather than overwritten. -/
theorem c3_amended (row : Row) (tm gm : LookupMap) :
    (∀ name ∈ FIELD_MAP.map Prod.snd,
        (lastLookup (to_payload row tm gm) name).isSome = true) ∧
    (lastLookup (to_payload row tm gm) "Therapeutic Areas of Focus" ≠ Option.none
      ↔ resolveIds tm (parse_list_field (toValue (row "Therapeutic Areas"))) ≠ []) ∧
    (lastLookup (to_payload row tm gm) "Geography Focus" ≠ Option.none
      ↔ resolveIds gm (parse_list_field (toValue (row "Geography Focus"))) ≠ []) ∧
    (lastLookup (to_payload row tm gm) "Headquarters Country" ≠ Option.none
      ↔ resolveIds gm (parse_list_field (toValue (row "HQ Country"))) ≠ []) := by
  refine ⟨?_, ?_, ?_, ?_⟩
  · intro name h
    fin_cases h <;>
      · rw [lastLookup_payload_of_ne row tm gm _ (by decide) (by decide) (by decide)]
        rfl
  · rw [lastLookup_payload_therapeutic]
    by_cases hi : resolveIds tm (parse_list_field (toValue (row "Therapeutic Areas"))) = []
    · simp [hi]
    · simp [hi, List.isEmpty_iff]
  · rw [lastLookup_payload_geography]
    by_cases hi : resolveIds gm (parse_list_field (toValue (row "Geography Focus"))) = []
    · simp [hi]
    · simp [hi, List.isEmpty_iff]
  · rw [lastLookup_payload_country]
    by_cases hi : resolveIds gm (parse_list_field (toValue (row "HQ Country"))) = []
    · simp [hi]
    · simp [hi, List.isEmpty_iff]

/-- C3 witness: the scalar field "Firm Name" is present in a concrete
payload. -/
theorem c3_amended_witness :
    (lastLookup (to_payload rowAcme emptyLookup emptyLookup) "Firm Name").isSome
      = true :=
  (c3_amended rowAcme emptyLookup emptyLookup).1 "Firm Name" (by decide)

/-- C10: each relation field of the payload is the resolved identifier list
of the corresponding cell when that list is non-empty and absent otherwise,
and every resolved identifier is a truthy value obtained from the
corresponding lookup map at a parsed token. -/
theorem c10_relation_fields (row : Row) (tm gm : LookupMap) :
    (lastLookup (to_payload row tm gm) "Therapeutic Areas of Focus"
      = (if (resolveIds tm (parse_list_field (toValue (row "Therapeutic Areas")))).isEmpty
         then Option.none
         else some (Value.list
           (resolveIds tm (parse_list_field (toValue (row "Therapeutic Areas"))))))) ∧
    (lastLookup (to_payload row tm gm) "Geography Focus"
      = (if (resolveIds gm (parse_list_field (toValue (row "Geography Focus")))).isEmpty
         then Option.none
         else some (Value.list
           (resolveIds gm (parse_list_field (toValue (row "Geography Focus"))))))) ∧
    (lastLookup (to_payload row tm gm) "Headquarters Country"
      = (if (resolveIds gm (parse_list_field (toValue (row "HQ Country")))).isEmpty
         then Option.none
         else some (Value.list
           (resolveIds gm (parse_list_field (toValue (row "HQ Country"))))))) ∧
    (∀ (m : LookupMap) (items : List String) (s : String),
        s ∈ resolveIds m items →
        s ≠ "" ∧ ∃ item ∈ items, m (pyLower item) = some s) ∧
    (∀ (m : LookupMap) (items : List String),
        resolveIds m items = [] ↔
          ∀ item ∈ items,
            m (pyLower item) = Option.none ∨ m (pyLower item) = some "") := by
  refine ⟨lastLookup_payload_therapeutic row tm gm,
    lastLookup_payload_geography row tm gm,
    lastLookup_payload_country row tm gm, ?_, ?_⟩
  · intro m items s hs
    obtain ⟨item, hitem, hf⟩ := List.mem_filterMap.mp hs
    cases hm : m (pyLower item) with
    | none => rw [hm] at hf; exact Option.noConfusion hf
    | some v =>
        rw [hm] at hf
        have hf2 : (if v = "" then Option.none else some v) = some s := hf
        by_cases hv : v = ""
        · rw [if_pos hv] at hf2
          exact Option.noConfusion hf2
        · rw [if_neg hv] at hf2
          obtain rfl : v = s := Option.some.inj hf2
          exact ⟨hv, item, hitem, hm⟩
  · intro m items
    rw [show resolveIds m items = List.filterMap _ items from rfl,
      List.filterMap_eq_nil_iff]
    constructor
    · intro h item hitem
      have hthis := h item hitem
      cases hm : m (pyLower item) with
      | none => exact Or.inl rfl
      | some v =>
          rw [hm] at hthis
          have h2 : (if v = "" then Option.none else some v)
              = (Option.none : Option String) := hthis
          by_cases hv : v = ""
          · exact Or.inr (congrArg some hv)
          · rw [if_neg hv] at h2
            exact absurd h2 (by simp)
    · intro h item hitem
      rcases h item hitem with hm | hm
      · rw [hm]
      · rw [hm]
        rfl

/-- C10 witness: a concrete resolved identifier is truthy and comes from the
map at a parsed token. -/
theorem c10_relation_fields_witness :
    "recX" ≠ "" ∧ ∃ item ∈ (["Onc"] : List String),
      oneLookup (pyLower item) = some "recX" :=
  ((c10_relation_fields rowAcme oneLookup oneLookup).2.2.2.1) oneLookup ["Onc"]
    "recX" (by decide)

/-- C5: when a firm name (two or more case-insensitive occurrences across the
input rows) is absent from the remote index at the start of the run, the run
issues exactly one create for it — on the first occurrence — and every later
occurrence issues an update against the identifier returned by that create;
never a second create. -/
theorem c5_duplicate_rows_one_create (rows : List Row) (tm gm : LookupMap)
    (t : TableState) (k : String)
    (habs : index_existing_firms t.records k = Option.none)
    (hcount : 2 ≤ rows.countP (keyMatchB k)) :
    ∃ i p tail,
      opsForKey (upsert_firms rows tm gm t).log k
        = UpsertOp.create k i p :: tail ∧
      tail ≠ [] ∧
      (∀ op ∈ tail, ∃ q, op = UpsertOp.update k i q) ∧
      tail.length + 1 = rows.countP (keyMatchB k) := by
  rcases runRows_ops_absent tm gm rows (index_existing_firms t.records) t k habs with
    ⟨_, hzero⟩ | ⟨i, p, tail, hops, hlen, hall⟩
  · rw [hzero] at hcount
    exact absurd hcount (by decide)
  · refine ⟨i, p, tail, hops, ?_, hall, hlen⟩
    intro htail
    rw [htail] at hlen
    rw [← hlen] at hcount
    exact absurd hcount (by decide)

/-- C5 witness: the duplicate-cased rows "Acme Capital" and " ACME CAPITAL "
against an empty table. -/
theorem c5_duplicate_rows_one_create_witness :
    ∃ i p tail,
      opsForKey (upsert_firms [rowAcme, rowAcmeUpper] emptyLookup emptyLookup
          emptyTable).log "acme capital"
        = UpsertOp.create "acme capital" i p :: tail ∧
      tail ≠ [] ∧
      (∀ op ∈ tail, ∃ q, op = UpsertOp.update "acme capital" i q) ∧
      tail.length + 1
        = List.countP (keyMatchB "acme capital") [rowAcme, rowAcmeUpper] :=
  c5_duplicate_rows_one_create [rowAcme, rowAcmeUpper] emptyLookup emptyLookup
    emptyTable "acme capital" (by rfl) (by decide)

/-- C2 counterexample: the upsert pipeline is NOT idempotent as claimed.
(1) For the single row Firm="TBD" against an empty table, the first run
creates a record whose `Firm Name` field is the null marker, so the second
run — against the state the first run produced — issues a create again
(claim: zero creates) and the record set grows from one record to two
(claim: record set unchanged).  (2) For two rows that are the same firm in
different casing (one distinct natural key), the second run issues two
updates, not one update per distinct key. -/
theorem c2_counterexample :
    (upsert_firms [rowTBD] emptyLookup emptyLookup
        (upsert_firms [rowTBD] emptyLookup emptyLookup emptyTable).table).creates
      = 1 ∧
    (upsert_firms [rowTBD] emptyLookup emptyLookup emptyTable).table.records.length
      = 1 ∧
    (upsert_firms [rowTBD] emptyLookup emptyLookup
        (upsert_firms [rowTBD] emptyLookup emptyLookup
          emptyTable).table).table.records.length = 2 ∧
    pyLower (strip ((rowAcme "Firm").getD ""))
      = pyLower (strip ((rowAcmeUpper "Firm").getD "")) ∧
    (upsert_firms [rowAcme, rowAcmeUpper] emptyLookup emptyLookup
        (upsert_firms [rowAcme, rowAcmeUpper] emptyLookup emptyLookup
          emptyTable).table).updates = 2 := by
  exact ⟨rfl, rfl, rfl, rfl, rfl⟩

/-- C2 (amended): provided no row's trimmed firm name is a placeholder token
(and the remote table has distinct record identifiers, all below the fresh-id
counter), running `upsert_firms` a second time against the state produced by
the first run issues zero creates, issues one update per row with a non-empty
firm name (hence several per natural key when duplicate-named rows occur),
reissues exactly the first run's calls as updates — same identifiers, same
payloads — and leaves the record set unchanged. -/
theorem c2_amended (rows : List Row) (tm gm : LookupMap) (t : TableState)
    (hids : (t.records.map TableRec.id).Nodup)
    (hfresh : ∀ r ∈ t.records, r.id < t.nextId)
    (hrows : ∀ r ∈ rows, goodRow r) :
    (upsert_firms rows tm gm (upsert_firms rows tm gm t).table).creates = 0 ∧
    (upsert_firms rows tm gm (upsert_firms rows tm gm t).table).updates
      = rows.countP nonSkipB ∧
    (upsert_firms rows tm gm (upsert_firms rows tm gm t).table).errors = 0 ∧
    (upsert_firms rows tm gm (upsert_firms rows tm gm t).table).log
      = updatifyLog (upsert_firms rows tm gm t).log ∧
    (upsert_firms rows tm gm (upsert_firms rows tm gm t).table).table.records
      = (upsert_firms rows tm gm t).table.records := by
  have hm := runRows_master tm gm rows (index_existing_firms t.records) t
    (fun k => index_eq_lastFirmId t.records k) hids hfresh hrows
  have hptw : ∀ k, (upsert_firms rows tm gm t).existing k
      = index_existing_firms (upsert_firms rows tm gm t).table.records k := by
    intro k
    rw [index_eq_lastFirmId]
    exact hm.inv k
  have hcompat2 : Compat tm gm
      (index_existing_firms (upsert_firms rows tm gm t).table.records) rows
      (upsert_firms rows tm gm t).log :=
    Compat_ext tm gm _ _ hptw rows _ hm.compat
  obtain ⟨hlog, hcr, hup, herr, _, hrec⟩ :=
    runRows_replay tm gm rows (upsert_firms rows tm gm t).log
      (index_existing_firms (upsert_firms rows tm gm t).table.records)
      (upsert_firms rows tm gm t).table hcompat2
  refine ⟨hcr, hup, herr, hlog, ?_⟩
  show (runRows tm gm rows
      (index_existing_firms (upsert_firms rows tm gm t).table.records)
      (upsert_firms rows tm gm t).table).table.records
    = (upsert_firms rows tm gm t).table.records
  rw [hrec]
  have hfix : ∀ r0 ∈ (upsert_firms rows tm gm t).table.records,
      (fun r0 : TableRec =>
        ({ id := r0.id,
           fields := mergeMany r0.fields
             (payloadsFor (updatifyLog (upsert_firms rows tm gm t).log) r0.id) }
         : TableRec)) r0 = (fun r0 : TableRec => r0) r0 := by
    intro r0 hr0
    show ({ id := r0.id,
            fields := mergeMany r0.fields
              (payloadsFor (updatifyLog (upsert_firms rows tm gm t).log) r0.id) }
      : TableRec) = r0
    rw [payloadsFor_updatify]
    have hchara : (∃ r1 ∈ t.records, r1.id = r0.id ∧
          r0.fields = mergeMany r1.fields
            (payloadsFor (upsert_firms rows tm gm t).log r0.id))
        ∨ (t.nextId ≤ r0.id ∧
          r0.fields = mergeMany emptyFields
            (payloadsFor (upsert_firms rows tm gm t).log r0.id)) :=
      hm.chara r0 hr0
    rcases hchara with ⟨r1, _, _, hf⟩ | ⟨_, hf⟩
    · have habs : mergeMany r0.fields
          (payloadsFor (upsert_firms rows tm gm t).log r0.id) = r0.fields := by
        rw [hf, mergeMany_absorb]
      rw [habs]
    · have habs : mergeMany r0.fields
          (payloadsFor (upsert_firms rows tm gm t).log r0.id) = r0.fields := by
        rw [hf, mergeMany_absorb]
      rw [habs]
  exact (List.map_congr_left hfix).trans (List.map_id' _)

/-- C2 witness: two duplicate-cased "Acme Capital" rows against an empty
table; the second run is pure updates and leaves the single record as is. -/
theorem c2_amended_witness :
    (upsert_firms [rowAcme, rowAcmeUpper] emptyLookup emptyLookup
        (upsert_firms [rowAcme, rowAcmeUpper] emptyLookup emptyLookup
          emptyTable).table).creates = 0 ∧
    (upsert_firms [rowAcme, rowAcmeUpper] emptyLookup emptyLookup
        (upsert_firms [rowAcme, rowAcmeUpper] emptyLookup emptyLookup
          emptyTable).table).updates
      = List.countP nonSkipB [rowAcme, rowAcmeUpper] ∧
    (upsert_firms [rowAcme, rowAcmeUpper] emptyLookup emptyLookup
        (upsert_firms [rowAcme, rowAcmeUpper] emptyLookup emptyLookup
          emptyTable).table).errors = 0 ∧
    (upsert_firms [rowAcme, rowAcmeUpper] emptyLookup emptyLookup
        (upsert_firms [rowAcme, rowAcmeUpper] emptyLookup emptyLookup
          emptyTable).table).log
      = updatifyLog (upsert_firms [rowAcme, rowAcmeUpper] emptyLookup emptyLookup
          emptyTable).log ∧
    (upsert_firms [rowAcme, rowAcmeUpper] emptyLookup emptyLookup
        (upsert_firms [rowAcme, rowAcmeUpper] emptyLookup emptyLookup
          emptyTable).table).table.records
      = (upsert_firms [rowAcme, rowAcmeUpper] emptyLookup emptyLookup
          emptyTable).table.records :=
  c2_amended [rowAcme, rowAcmeUpper] emptyLookup emptyLookup emptyTable
    (by decide) (by decide) (by decide)

end BiotechSync
